import Mathlib

/-!
Verification development for the `sample-longest` pathfinder provider
(`sdk/example/pathfinder_longest.c`).

The C code is shallowly embedded:
* `ruea_path_node` / `ruea_path_graph` become Lean structures over `List`;
  the C `nodes` pointer plus `node_count` pair is modelled as a single list
  (a NULL `nodes` pointer and a zero `node_count` both collapse to `[]`,
  which is observationally faithful because the code only ever checks
  `!g->nodes || g->node_count == 0` and then indexes within bounds).
* C strings become Lean `String`s; `strlen` is modelled as `String.length`
  (lengths are counted uniformly in characters, which preserves every
  size relation the code computes, since the code uses `strlen` both for
  sizing and for copying).
* The `visited` marker array becomes a `Finset Nat` of marked indices.
* Status codes and the ABI version constant come from the SDK header,
  which is not part of this repository's sources; they are modelled from
  the spec's status taxonomy as an inductive type (only their identity
  and distinctness are ever observed).
-/

/-- One node of the pathfinding graph: a display name and the ordered list
of neighbour names (`ruea_path_node`). -/
structure RueaPathNode where
  name : String
  links : List String
  deriving Repr, DecidableEq

/-- The pathfinding graph (`ruea_path_graph`): an ordered sequence of nodes. -/
structure RueaPathGraph where
  nodes : List RueaPathNode
  deriving Repr, DecidableEq

/-- Modelled from the spec: status codes of the SDK header (`RUEA_OK`,
`RUEA_ERR_BAD_ARGUMENT`, `RUEA_ERR_NO_MEMORY`, `RUEA_ERR_UNSUPPORTED`).
The header is not under the repository sources; only the identity of these
codes is observable. -/
inductive RueaStatus where
  | RUEA_OK
  | RUEA_ERR_BAD_ARGUMENT
  | RUEA_ERR_NO_MEMORY
  | RUEA_ERR_UNSUPPORTED
  deriving Repr, DecidableEq

deriving instance DecidableEq for Except

/-- Modelled from the spec: the ABI version constant `RUEA_ABI_VERSION` of
the SDK header.  Its concrete value is never observed by the code under
verification, only the fact that the output bundle's version field is set
to it. -/
def RUEA_ABI_VERSION : Nat := 1

/-- Modelled from the spec: `sizeof(ruea_path_graph)`, the minimum byte
size a binary `"graph"` settings entry must have (a pointer plus a size
field on a 64-bit host).  Only the comparison against an entry's length is
observable. -/
def RUEA_PATH_GRAPH_SIZE : Nat := 16

/-- The termination measure of the search: twice the number of in-range
node indices not yet marked visited, plus one when the entered node is
still unmarked.  Entering an unmarked node shrinks the unvisited set;
entering a marked node (possible only for the initial call) keeps the set
but drops the extra unit, since every recursive call targets an unmarked
neighbour. -/
def dfsMeasure (g : RueaPathGraph) (cur : Nat) (visited : Finset Nat) : Nat :=
  2 * ((Finset.range g.nodes.length) \ visited).card +
    (if cur ∈ visited then 1 else 0)

/-- Every recursive call of the search strictly decreases `dfsMeasure`. -/
lemma dfsMeasure_decrease (g : RueaPathGraph) {cur i : Nat} (visited : Finset Nat)
    (h : cur < g.nodes.length) (hv : i ∉ insert cur visited) :
    dfsMeasure g i (insert cur visited) < dfsMeasure g cur visited := by
  unfold dfsMeasure
  by_cases hc : cur ∈ visited
  · have hins : insert cur visited = visited := Finset.insert_eq_self.mpr hc
    rw [hins]
    rw [hins] at hv
    simp [hv, hc]
  · have hmem : cur ∈ Finset.range g.nodes.length \ visited := by
      simp [Finset.mem_sdiff, Finset.mem_range, h, hc]
    have hsub : Finset.range g.nodes.length \ insert cur visited ⊂
        Finset.range g.nodes.length \ visited := by
      constructor
      · intro x hx
        simp only [Finset.mem_sdiff, Finset.mem_insert] at hx ⊢
        exact ⟨hx.1, fun hxv => hx.2 (Or.inr hxv)⟩
      · intro hcontra
        have := hcontra hmem
        simp [Finset.mem_sdiff] at this
    have hcard := Finset.card_lt_card hsub
    simp only [hv, if_neg, hc]
    omega

/-- Helper for `findNode`: scan the node list from index `i`, returning the
index of the first node whose name matches. -/
def findNodeAux (nodes : List RueaPathNode) (name : String) (i : Nat) : Option Nat :=
  match nodes with
  | [] => none
  | n :: rest => if n.name = name then some i else findNodeAux rest name (i + 1)

/-- `find_node`: linear scan for the first node whose name equals `name`;
the C sentinel `-1` becomes `none`. -/
def findNode (g : RueaPathGraph) (name : String) : Option Nat :=
  findNodeAux g.nodes name 0

/-- `dfs_longest`: depth-first backtracking search for the longest simple
path from `cur` to `dst`.  The C in/out parameters `best_route`/`best_len`
become the threaded `best` value; the mutated `visited` array becomes the
`visited` set (the C function restores `visited` before returning, so each
recursive call observes exactly the set passed here); `stack`/`depth`
become the `stack` list (`depth` is its length after the push). -/
def dfsLongest (g : RueaPathGraph) (dst : Nat) (cur : Nat) (visited : Finset Nat)
    (stack : List String) (best : List String) : List String :=
  if h : cur < g.nodes.length then
    if cur = dst then
      if (stack ++ [(g.nodes.get ⟨cur, h⟩).name]).length > best.length
      then stack ++ [(g.nodes.get ⟨cur, h⟩).name] else best
    else
      (g.nodes.get ⟨cur, h⟩).links.foldl
        (fun b nbr =>
          match findNode g nbr with
          | some i =>
            if hv : i ∈ insert cur visited then b
            else dfsLongest g dst i (insert cur visited)
              (stack ++ [(g.nodes.get ⟨cur, h⟩).name]) b
          | none => b) best
  else best
termination_by dfsMeasure g cur visited
decreasing_by
  exact dfsMeasure_decrease g visited h hv

/-- A typed value of a settings entry (the C `type` discriminant together
with the active member of the union `v`).  A binary value carries the graph
its pointer is reinterpreted as (`none` models a NULL pointer) and its
declared byte length. -/
inductive RueaVal where
  | str (s : String)
  | bin (g : Option RueaPathGraph) (len : Nat)
  deriving Repr, DecidableEq

/-- One `ruea_kv` entry: a key (NULL modelled as `none`) and a typed value. -/
structure RueaKv where
  key : Option String
  v : RueaVal
  deriving Repr, DecidableEq

/-- A `ruea_settings` bundle: ABI version, the `items` pointer (NULL is
`none`) and the entry count. -/
structure RueaSettings where
  version : Nat
  items : Option (List RueaKv)
  count : Nat
  deriving Repr, DecidableEq

/-- The element-writing loop of `build_route_settings`: each name is
wrapped in double quotes, with a comma after every element except the
last (`if (i + 1 < route_len) json[pos++] = ',';`). -/
def serializeItems : List String → String
  | [] => ""
  | s :: rest =>
    "\"" ++ s ++ "\"" ++ (if rest = [] then "" else "," ++ serializeItems rest)

/-- The full serialized route text built by `build_route_settings`:
the quoted, comma-separated names enclosed in square brackets. -/
def serializeRoute (route : List String) : String :=
  "[" ++ serializeItems route ++ "]"

/-- The capacity computation of `build_route_settings`
(`buf_cap = 2; for each name: buf_cap += strlen + 4`); the allocation is
`malloc(buf_cap + 1)`. -/
def buf_cap (route : List String) : Nat :=
  route.foldl (fun acc s => acc + (s.length + 4)) 2

/-- `build_route_settings`, with every allocation succeeding: fills the
output bundle with zero entries for an empty route, and with the single
string entry keyed `"route"` otherwise.  The returned pair is the status
and the final state of the `out` bundle (`none` models a NULL pointer). -/
def build_route_settings (route : List String) (out : Option RueaSettings) :
    RueaStatus × Option RueaSettings :=
  match out with
  | none => (.RUEA_ERR_BAD_ARGUMENT, none)
  | some o =>
    let o1 := { o with version := RUEA_ABI_VERSION }
    if route = [] then (.RUEA_OK, some { o1 with items := none, count := 0 })
    else
      let json := serializeRoute route
      (.RUEA_OK, some { o1 with items := some [⟨some "route", RueaVal.str json⟩], count := 1 })

/-- `build_route_settings` instrumented with an allocation budget (the
number of further `malloc` calls that succeed).  The function makes two
checked allocations on the non-empty path: the text buffer and the
key/value record; each failure returns `RUEA_ERR_NO_MEMORY` after the
version field has already been stored but before `items`/`count` are
touched. -/
def build_route_settingsA (route : List String) (out : Option RueaSettings)
    (budget : Nat) : RueaStatus × Option RueaSettings × Nat :=
  match out with
  | none => (.RUEA_ERR_BAD_ARGUMENT, none, budget)
  | some o =>
    let o1 := { o with version := RUEA_ABI_VERSION }
    if route = [] then (.RUEA_OK, some { o1 with items := none, count := 0 }, budget)
    else
      match budget with
      | 0 => (.RUEA_ERR_NO_MEMORY, some o1, 0)
      | 1 => (.RUEA_ERR_NO_MEMORY, some o1, 0)
      | b + 2 =>
        let json := serializeRoute route
        (.RUEA_OK, some { o1 with items := some [⟨some "route", RueaVal.str json⟩], count := 1 }, b)

/-- The graph-extraction scan of `on_pathfind`: the first entry with a
non-NULL key equal to `"graph"`, binary type, non-NULL payload and a
length of at least `sizeof(ruea_path_graph)`; every other entry is
silently skipped. -/
def findGraphEntry : List RueaKv → Option RueaPathGraph
  | [] => none
  | kv :: rest =>
    match kv.key with
    | none => findGraphEntry rest
    | some k =>
      match kv.v with
      | RueaVal.bin gopt len =>
        if k = "graph" then
          match gopt with
          | some g => if len < RUEA_PATH_GRAPH_SIZE then findGraphEntry rest else some g
          | none => findGraphEntry rest
        else findGraphEntry rest
      | _ => findGraphEntry rest

/-- The guarded scan: entries are examined only when the `items` pointer is
non-NULL and `count > 0`; `count` bounds how many entries are read. -/
def extractGraph (s : RueaSettings) : Option RueaPathGraph :=
  match s.items with
  | none => none
  | some kvs => if s.count = 0 then none else findGraphEntry (kvs.take s.count)

/-- `on_pathfind`, with every allocation succeeding: validates the four
arguments, extracts the graph, resolves both endpoint names, runs the
search and serializes the winning route into the output bundle.  `none`
arguments model NULL pointers; the second component is the final state of
the output bundle. -/
def on_pathfind (gs : Option RueaSettings) (src dst : Option String)
    (out : Option RueaSettings) : RueaStatus × Option RueaSettings :=
  match gs, src, dst, out with
  | some gss, some s, some d, some o =>
    match extractGraph gss with
    | none => (.RUEA_ERR_BAD_ARGUMENT, some o)
    | some g =>
      if g.nodes.isEmpty then (.RUEA_ERR_BAD_ARGUMENT, some o)
      else
        match findNode g s, findNode g d with
        | some si, some di =>
          let best := dfsLongest g di si ∅ [] []
          build_route_settings best (some o)
        | some _, none => (.RUEA_ERR_BAD_ARGUMENT, some o)
        | none, _ => (.RUEA_ERR_BAD_ARGUMENT, some o)
  | _, _, _, _ => (.RUEA_ERR_BAD_ARGUMENT, out)

/-- `dfs_longest` instrumented with an allocation budget.  The best-route
slot is `Option (List String)` (`none` models the NULL/just-released
state).  On adoption of a strictly longer candidate the code first calls
`free_route` on the previous best and only then allocates the replacement
(`make_str_array` plus one `malloc` per element), without checking any of
those allocations: an exhausted budget therefore crashes (the C code
writes through a NULL pointer), modelled as `.error` carrying the state of
the best-route slot at the crash — which is always the just-released
`none`. -/
def dfsA (g : RueaPathGraph) (dst : Nat) (cur : Nat) (visited : Finset Nat)
    (stack : List String) (best : Option (List String)) (budget : Nat) :
    Except (Option (List String)) (Option (List String) × Nat) :=
  if h : cur < g.nodes.length then
    if cur = dst then
      if (stack ++ [(g.nodes.get ⟨cur, h⟩).name]).length > (best.getD []).length then
        match budget with
        | 0 => .error none
        | b + 1 =>
          if (stack ++ [(g.nodes.get ⟨cur, h⟩).name]).length ≤ b then
            .ok (some (stack ++ [(g.nodes.get ⟨cur, h⟩).name]),
              b - (stack ++ [(g.nodes.get ⟨cur, h⟩).name]).length)
          else .error none
      else .ok (best, budget)
    else
      (g.nodes.get ⟨cur, h⟩).links.foldl
        (fun acc nbr =>
          match acc with
          | .error e => .error e
          | .ok (b, bud) =>
            match findNode g nbr with
            | some i =>
              if hv : i ∈ insert cur visited then .ok (b, bud)
              else dfsA g dst i (insert cur visited)
                (stack ++ [(g.nodes.get ⟨cur, h⟩).name]) b bud
            | none => .ok (b, bud)) (.ok (best, budget))
  else .ok (best, budget)
termination_by dfsMeasure g cur visited
decreasing_by
  exact dfsMeasure_decrease g visited h hv

/-- `on_pathfind` instrumented with an allocation budget.  The entry point
itself makes two unchecked allocations before the search (the `calloc` for
the visited markers and the `make_str_array` for the path stack); if
either fails the search immediately writes through the NULL pointer, a
crash modelled as `.error`.  The serializer's allocations are checked and
surface as a status. -/
def on_pathfindA (gs : Option RueaSettings) (src dst : Option String)
    (out : Option RueaSettings) (budget : Nat) :
    Except (Option (List String)) (RueaStatus × Option RueaSettings × Nat) :=
  match gs, src, dst, out with
  | some gss, some s, some d, some o =>
    match extractGraph gss with
    | none => .ok (.RUEA_ERR_BAD_ARGUMENT, some o, budget)
    | some g =>
      if g.nodes.isEmpty then .ok (.RUEA_ERR_BAD_ARGUMENT, some o, budget)
      else
        match findNode g s, findNode g d with
        | some si, some di =>
          match budget with
          | 0 => .error none
          | 1 => .error none
          | b + 2 =>
            match dfsA g di si ∅ [] none b with
            | .error e => .error e
            | .ok (best, b1) => .ok (build_route_settingsA (best.getD []) (some o) b1)
        | some _, none => .ok (.RUEA_ERR_BAD_ARGUMENT, some o, budget)
        | none, _ => .ok (.RUEA_ERR_BAD_ARGUMENT, some o, budget)
  | _, _, _, _ => .ok (.RUEA_ERR_BAD_ARGUMENT, out, budget)

/-! ## Properties of node lookup -/

/-- The name of the node at index `j` (an arbitrary default outside the
graph; every use is guarded by an in-range index). -/
def nodeNameD (g : RueaPathGraph) (j : Nat) : String :=
  (g.nodes.getD j ⟨"", []⟩).name

/-- The neighbour-name list of the node at index `j`. -/
def nodeLinksD (g : RueaPathGraph) (j : Nat) : List String :=
  (g.nodes.getD j ⟨"", []⟩).links

lemma findNodeAux_some {name : String} :
    ∀ (nodes : List RueaPathNode) (i j : Nat),
      findNodeAux nodes name i = some j →
      ∃ k, ∃ hk : k < nodes.length, j = i + k ∧ (nodes.get ⟨k, hk⟩).name = name := by
  intro nodes
  induction nodes with
  | nil => intro i j h; simp [findNodeAux] at h
  | cons n rest ih =>
    intro i j h
    rw [findNodeAux] at h
    by_cases hn : n.name = name
    · rw [if_pos hn] at h
      cases h
      exact ⟨0, by simp, by omega, hn⟩
    · rw [if_neg hn] at h
      obtain ⟨k, hk, hj, hname⟩ := ih (i + 1) j h
      refine ⟨k + 1, by simpa using Nat.succ_lt_succ hk, by omega, ?_⟩
      simpa using hname

/-- A successful lookup returns an in-range index. -/
lemma findNode_lt {g : RueaPathGraph} {nm : String} {j : Nat}
    (h : findNode g nm = some j) : j < g.nodes.length := by
  obtain ⟨k, hk, hj, _⟩ := findNodeAux_some g.nodes 0 j h
  omega

/-- A successful lookup returns the index of a node carrying the
looked-up name. -/
lemma findNode_name {g : RueaPathGraph} {nm : String} {j : Nat}
    (h : findNode g nm = some j) : nodeNameD g j = nm := by
  obtain ⟨k, hk, hj, hname⟩ := findNodeAux_some g.nodes 0 j h
  have hj' : j = k := by omega
  subst hj'
  rw [nodeNameD, List.getD_eq_getElem _ _ hk]
  simpa [List.get_eq_getElem] using hname

/-- Looking up the name of a node that some lookup returned yields that
same index again (the index is the first occurrence of its name). -/
lemma findNode_of_found {g : RueaPathGraph} {nm : String} {j : Nat}
    (h : findNode g nm = some j) : findNode g (nodeNameD g j) = some j := by
  rw [findNode_name h]
  exact h

/-- A graph with a successfully resolved name has at least one node. -/
lemma findNode_nodes_ne_nil {g : RueaPathGraph} {nm : String} {j : Nat}
    (h : findNode g nm = some j) : g.nodes ≠ [] := by
  intro hnil
  have := findNode_lt h
  rw [hnil] at this
  simp at this

/-! ## Route validity -/

/-- One step of a declared link: the earlier name resolves to some node
(necessarily its first occurrence) and the later name is listed among that
node's links. -/
def linkStep (g : RueaPathGraph) (a b : String) : Prop :=
  ∃ j, findNode g a = some j ∧ b ∈ nodeLinksD g j

/-- A valid returned route: non-empty, pairwise-distinct names, every
consecutive pair connected by a link declared on the earlier name's node,
starting at `src` and ending at `dst`. -/
def validRoute (g : RueaPathGraph) (src dst : String) (r : List String) : Prop :=
  r ≠ [] ∧ r.Nodup ∧ List.Chain' (linkStep g) r ∧
    r.head? = some src ∧ r.getLast? = some dst

/-- The best-route slot invariant: empty, or a valid route. -/
def BestProp (g : RueaPathGraph) (src dst : String) (b : List String) : Prop :=
  b = [] ∨ validRoute g src dst b

/-- The index-level chain relation maintained along the search stack:
the earlier index is the first occurrence of its name, and the later
index's name is declared among the earlier node's links. -/
def idxStep (g : RueaPathGraph) (a b : Nat) : Prop :=
  findNode g (nodeNameD g a) = some a ∧ nodeNameD g b ∈ nodeLinksD g a

/-- The invariant of a `dfs_longest` call: the stack is the image of a
duplicate-free list `js` of previously entered indices, the visited set is
exactly those indices, the entered index `cur` is in range and unvisited,
every index on the extended path is the first occurrence of its name, the
extended path is chained by declared links, and it starts at the resolved
source index `si`. -/
def StackInv (g : RueaPathGraph) (si cur : Nat) (visited : Finset Nat)
    (stack : List String) : Prop :=
  ∃ js : List Nat,
    stack = js.map (nodeNameD g) ∧
    visited = js.toFinset ∧
    js.Nodup ∧
    cur < g.nodes.length ∧
    cur ∉ visited ∧
    (∀ j ∈ js ++ [cur], findNode g (nodeNameD g j) = some j) ∧
    List.Chain' (idxStep g) (js ++ [cur]) ∧
    (js ++ [cur]).head? = some si

lemma nodeNameD_get {g : RueaPathGraph} {j : Nat} (h : j < g.nodes.length) :
    (g.nodes.get ⟨j, h⟩).name = nodeNameD g j := by
  rw [nodeNameD, List.getD_eq_getElem _ _ h, List.get_eq_getElem]

lemma nodeLinksD_get {g : RueaPathGraph} {j : Nat} (h : j < g.nodes.length) :
    (g.nodes.get ⟨j, h⟩).links = nodeLinksD g j := by
  rw [nodeLinksD, List.getD_eq_getElem _ _ h, List.get_eq_getElem]

/-- A path list satisfying the index-level invariant maps to a valid
route: distinct names (each index is the first occurrence of its name),
declared-link chaining, and the recorded endpoints. -/
lemma validRoute_of_path (g : RueaPathGraph) {src dst : String} {si di : Nat}
    (hs : findNode g src = some si) (hd : findNode g dst = some di)
    (js : List Nat) (cur : Nat)
    (hnodup : js.Nodup) (hcurjs : cur ∉ js)
    (hfirst : ∀ j ∈ js ++ [cur], findNode g (nodeNameD g j) = some j)
    (hchain : List.Chain' (idxStep g) (js ++ [cur]))
    (hhead : (js ++ [cur]).head? = some si)
    (hcd : cur = di) :
    validRoute g src dst ((js ++ [cur]).map (nodeNameD g)) := by
  refine ⟨by simp, ?_, ?_, ?_, ?_⟩
  · refine List.Nodup.map_on ?_ ?_
    · intro x hx y hy hxy
      have h1 := hfirst x hx
      have h2 := hfirst y hy
      rw [hxy] at h1
      rw [h1] at h2
      exact Option.some_injective _ h2
    · rw [List.nodup_append]
      refine ⟨hnodup, List.nodup_singleton cur, ?_⟩
      intro a ha hb
      rw [List.mem_singleton] at hb
      subst hb
      exact hcurjs ha
  · rw [List.chain'_map]
    refine List.Chain'.imp ?_ hchain
    intro a b hab
    exact ⟨a, hab.1, hab.2⟩
  · rw [List.head?_map, hhead]
    simp [findNode_name hs]
  · rw [List.map_append]
    simp only [List.map_cons, List.map_nil]
    rw [List.getLast?_concat]
    subst hcd
    simp [findNode_name hd]

/-- Main invariant of the search: from any state satisfying `StackInv`,
with a best slot that is empty or a valid route, `dfs_longest` returns a
best slot that is empty or a valid route. -/
lemma dfs_best_prop (g : RueaPathGraph) (src dst : String) (si di : Nat)
    (hs : findNode g src = some si) (hd : findNode g dst = some di) :
    ∀ (N : Nat) (cur : Nat) (visited : Finset Nat) (stack best : List String),
      dfsMeasure g cur visited ≤ N →
      StackInv g si cur visited stack →
      BestProp g src dst best →
      BestProp g src dst (dfsLongest g di cur visited stack best) := by
  intro N
  induction N using Nat.strong_induction_on with
  | _ N IH =>
    intro cur visited stack best hN hinv hbest
    obtain ⟨js, hstack, hvis, hnodup, hcur, hcurnv, hfirst, hchain, hhead⟩ := hinv
    have hcurjs : cur ∉ js := by
      intro hmem
      exact hcurnv (by rw [hvis]; exact List.mem_toFinset.mpr hmem)
    have hstack' : stack ++ [(g.nodes.get ⟨cur, hcur⟩).name] =
        (js ++ [cur]).map (nodeNameD g) := by
      rw [List.map_append, hstack, nodeNameD_get hcur]
      simp
    rw [dfsLongest]
    rw [dif_pos hcur]
    by_cases hcd : cur = di
    · rw [if_pos hcd]
      by_cases hlen :
          (stack ++ [(g.nodes.get ⟨cur, hcur⟩).name]).length > best.length
      · rw [if_pos hlen]
        right
        rw [hstack']
        exact validRoute_of_path g hs hd js cur hnodup hcurjs hfirst hchain hhead hcd
      · rw [if_neg hlen]
        exact hbest
    · rw [if_neg hcd]
      have hsub0 : ∀ nbr ∈ (g.nodes.get ⟨cur, hcur⟩).links, nbr ∈ nodeLinksD g cur := by
        intro nbr hnbr
        rwa [nodeLinksD_get hcur] at hnbr
      suffices haux : ∀ (L : List String), (∀ nbr ∈ L, nbr ∈ nodeLinksD g cur) →
          ∀ (b : List String), BestProp g src dst b →
          BestProp g src dst (L.foldl (fun b nbr =>
            match findNode g nbr with
            | some i =>
              if hv : i ∈ insert cur visited then b
              else dfsLongest g di i (insert cur visited)
                (stack ++ [(g.nodes.get ⟨cur, hcur⟩).name]) b
            | none => b) b) by
        exact haux _ hsub0 best hbest
      intro L
      induction L with
      | nil =>
        intro _ b hb
        simpa using hb
      | cons nbr rest ihL =>
        intro hsubL b hb
        rw [List.foldl_cons]
        have hnbr : nbr ∈ nodeLinksD g cur := hsubL nbr (List.mem_cons_self nbr rest)
        refine ihL (fun x hx => hsubL x (List.mem_cons_of_mem nbr hx)) _ ?_
        -- the effect of one neighbour step on the best slot
        cases hfn : findNode g nbr with
        | none => exact hb
        | some i =>
          show BestProp g src dst (if hv : i ∈ insert cur visited then b
            else dfsLongest g di i (insert cur visited)
              (stack ++ [(g.nodes.get ⟨cur, hcur⟩).name]) b)
          by_cases hiv : i ∈ insert cur visited
          · rw [dif_pos hiv]
            exact hb
          · rw [dif_neg hiv]
            have hdec := dfsMeasure_decrease g visited hcur hiv
            apply IH (dfsMeasure g i (insert cur visited))
              (lt_of_lt_of_le hdec hN) i (insert cur visited) _ b le_rfl ?_ hb
            -- StackInv for the recursive call
            refine ⟨js ++ [cur], ?_, ?_, ?_, findNode_lt hfn, hiv, ?_, ?_, ?_⟩
            · exact hstack'
            · rw [List.toFinset_append, hvis]
              simp [Finset.insert_eq, Finset.union_comm]
            · rw [List.nodup_append]
              refine ⟨hnodup, List.nodup_singleton cur, ?_⟩
              intro a ha hb'
              rw [List.mem_singleton] at hb'
              subst hb'
              exact hcurjs ha
            · intro j hj
              rw [List.mem_append] at hj
              rcases hj with hj | hj
              · exact hfirst j hj
              · rw [List.mem_singleton] at hj
                subst hj
                exact findNode_of_found hfn
            · rw [List.chain'_append]
              refine ⟨hchain, List.chain'_singleton i, ?_⟩
              intro x hx y hy
              rw [List.getLast?_concat] at hx
              simp only [List.head?_cons, Option.mem_some_iff] at hx hy
              subst hx
              subst hy
              refine ⟨hfirst cur (by simp), ?_⟩
              rw [findNode_name hfn]
              exact hnbr
            · rw [List.head?_append_of_ne_nil (js ++ [cur]) (by simp)]
              exact hhead

/-! ## Serializer properties -/

/-- The spec's description of the serialized route text: the names each
wrapped in double quotes, joined by commas, enclosed in square brackets. -/
def routeText (r : List String) : String :=
  "[" ++ String.intercalate "," (r.map fun s => "\"" ++ s ++ "\"") ++ "]"

lemma intercalate_cons (sep a : String) (as : List String) :
    String.intercalate sep (a :: as) = String.intercalate.go a sep as := rfl

lemma intercalate_go_quoted :
    ∀ (xs : List String) (a : String),
      String.intercalate.go a "," (xs.map fun s => "\"" ++ s ++ "\"") =
        a ++ (if xs = [] then "" else "," ++ serializeItems xs) := by
  intro xs
  induction xs with
  | nil =>
    intro a
    simp [String.intercalate.go]
  | cons x rest ih =>
    intro a
    rw [List.map_cons, String.intercalate.go, ih]
    rw [if_neg (List.cons_ne_nil x rest), serializeItems]
    simp [String.append_assoc]

/-- The serializer writes exactly the text the spec describes. -/
lemma serializeRoute_eq_routeText (r : List String) :
    serializeRoute r = routeText r := by
  cases r with
  | nil => rfl
  | cons s rest =>
    rw [serializeRoute, routeText, List.map_cons, intercalate_cons]
    rw [intercalate_go_quoted]
    rw [serializeItems]

lemma serializeItems_length_le :
    ∀ r : List String, (serializeItems r).length ≤ (r.map fun s => s.length + 3).sum := by
  intro r
  induction r with
  | nil => simp [serializeItems]
  | cons s rest ih =>
    rw [serializeItems]
    have hq : ("\"" : String).length = 1 := rfl
    have hc : ("," : String).length = 1 := rfl
    cases rest with
    | nil =>
      simp [String.length_append, hq]
      omega
    | cons y ys =>
      rw [if_neg (List.cons_ne_nil y ys)]
      simp only [List.map_cons, List.sum_cons] at ih ⊢
      simp only [String.length_append, hq, hc]
      omega

lemma buf_cap_eq (r : List String) :
    buf_cap r = 2 + (r.map fun s => s.length + 4).sum := by
  suffices h : ∀ (a : Nat), r.foldl (fun acc s => acc + (s.length + 4)) a =
      a + (r.map fun s => s.length + 4).sum by
    exact h 2
  induction r with
  | nil => intro a; simp
  | cons s rest ih =>
    intro a
    rw [List.foldl_cons, ih]
    simp [List.sum_cons]
    omega

/-! ## Spec-modelled route text parsing -/

/-- Modelled from the spec: reading one quoted name, consuming characters
up to the closing double quote (the repository contains no parser; the
spec's round-trip property requires one). -/
def parseName : List Char → Option (String × List Char)
  | [] => none
  | c :: rest =>
    if c = '"' then some ("", rest)
    else
      match parseName rest with
      | some (s, r) => some (⟨c :: s.data⟩, r)
      | none => none

/-- Modelled from the spec: reading a comma-separated sequence of quoted
names terminated by a closing bracket at the end of input. -/
def parseItems : Nat → List Char → Option (List String)
  | fuel, cs =>
    match cs with
    | '"' :: rest =>
      match parseName rest with
      | some (s, r) =>
        match r with
        | ']' :: rest2 => if rest2 = [] then some [s] else none
        | ',' :: rest2 =>
          match fuel with
          | 0 => none
          | f + 1 => (parseItems f rest2).map (fun l => s :: l)
        | _ => none
      | none => none
    | _ => none

/-- Modelled from the spec: parsing a JSON-style array of quoted node
names back into the ordered name sequence. -/
def parseRoute (text : String) : Option (List String) :=
  match text.data with
  | '[' :: ']' :: rest => if rest = [] then some [] else none
  | '[' :: rest => parseItems text.length rest
  | _ => none

/-! ## Concrete example graphs and settings -/

/-- The diamond graph of the spec's determinism property:
A→[B,C], B→[D], C→[D], D→[]. -/
def gDiamond : RueaPathGraph :=
  ⟨[⟨"A", ["B", "C"]⟩, ⟨"B", ["D"]⟩, ⟨"C", ["D"]⟩, ⟨"D", []⟩]⟩

/-- The cyclic graph of the spec's cycle-safety property:
A↔B mutual links and B→C. -/
def gCycle : RueaPathGraph :=
  ⟨[⟨"A", ["B"]⟩, ⟨"B", ["A", "C"]⟩, ⟨"C", []⟩]⟩

/-- A graph on which the search adopts a best route twice (first [A,D],
then the strictly longer [A,B,D]), exercising the release-then-reallocate
adoption path. -/
def gTwoAdopt : RueaPathGraph :=
  ⟨[⟨"A", ["D", "B"]⟩, ⟨"B", ["D"]⟩, ⟨"D", []⟩]⟩

/-- Two isolated nodes: no path from A to B. -/
def gNoPath : RueaPathGraph :=
  ⟨[⟨"A", []⟩, ⟨"B", []⟩]⟩

/-- A settings bundle holding a graph under the binary `"graph"` key. -/
def gsOf (g : RueaPathGraph) : RueaSettings :=
  ⟨RUEA_ABI_VERSION, some [⟨some "graph", RueaVal.bin (some g) RUEA_PATH_GRAPH_SIZE⟩], 1⟩

/-- An output bundle prefilled with junk, to observe which fields a call
mutates. -/
def outJunk : RueaSettings :=
  ⟨7, some [⟨some "junk", RueaVal.str "x"⟩], 3⟩

/-! ## Fuel-indexed evaluation twins

`dfsLongest` and `dfsA` are defined by well-founded recursion, which the
kernel cannot evaluate; the following structurally recursive twins carry a
fuel argument and are proved to coincide with them whenever the fuel
exceeds the termination measure, so that concrete runs can be settled by
`decide`. -/

/-- Structural twin of `dfsLongest`, recursing on `fuel`. -/
def dfsFuel (g : RueaPathGraph) (dst : Nat) :
    Nat → Nat → Finset Nat → List String → List String → List String
  | 0, _, _, _, best => best
  | fuel + 1, cur, visited, stack, best =>
    if h : cur < g.nodes.length then
      if cur = dst then
        if (stack ++ [(g.nodes.get ⟨cur, h⟩).name]).length > best.length
        then stack ++ [(g.nodes.get ⟨cur, h⟩).name] else best
      else
        (g.nodes.get ⟨cur, h⟩).links.foldl
          (fun b nbr =>
            match findNode g nbr with
            | some i =>
              if i ∈ insert cur visited then b
              else dfsFuel g dst fuel i (insert cur visited)
                (stack ++ [(g.nodes.get ⟨cur, h⟩).name]) b
            | none => b) best
    else best

lemma dfsFuel_eq (g : RueaPathGraph) (dst : Nat) :
    ∀ (fuel cur : Nat) (visited : Finset Nat) (stack best : List String),
      dfsMeasure g cur visited < fuel →
      dfsFuel g dst fuel cur visited stack best =
        dfsLongest g dst cur visited stack best := by
  intro fuel
  induction fuel using Nat.strong_induction_on with
  | _ fuel IH =>
    intro cur visited stack best hf
    cases fuel with
    | zero => omega
    | succ f =>
      rw [dfsLongest, dfsFuel]
      by_cases h : cur < g.nodes.length
      · rw [dif_pos h, dif_pos h]
        by_cases hcd : cur = dst
        · rw [if_pos hcd, if_pos hcd]
        · rw [if_neg hcd, if_neg hcd]
          suffices haux : ∀ (L : List String) (b : List String),
              L.foldl (fun b nbr =>
                match findNode g nbr with
                | some i =>
                  if i ∈ insert cur visited then b
                  else dfsFuel g dst f i (insert cur visited)
                    (stack ++ [(g.nodes.get ⟨cur, h⟩).name]) b
                | none => b) b =
              L.foldl (fun b nbr =>
                match findNode g nbr with
                | some i =>
                  if hv : i ∈ insert cur visited then b
                  else dfsLongest g dst i (insert cur visited)
                    (stack ++ [(g.nodes.get ⟨cur, h⟩).name]) b
                | none => b) b by
            exact haux _ best
          intro L
          induction L with
          | nil => intro b; rfl
          | cons nbr rest ihL =>
            intro b
            rw [List.foldl_cons, List.foldl_cons, ihL]
            congr 1
            cases hfn : findNode g nbr with
            | none => rfl
            | some i =>
              show (if i ∈ insert cur visited then b
                  else dfsFuel g dst f i (insert cur visited)
                    (stack ++ [(g.nodes.get ⟨cur, h⟩).name]) b) =
                (if hv : i ∈ insert cur visited then b
                  else dfsLongest g dst i (insert cur visited)
                    (stack ++ [(g.nodes.get ⟨cur, h⟩).name]) b)
              by_cases hiv : i ∈ insert cur visited
              · rw [if_pos hiv, dif_pos hiv]
              · rw [if_neg hiv, dif_neg hiv]
                have hdec := dfsMeasure_decrease g visited h hiv
                exact IH f (Nat.lt_succ_self f) i (insert cur visited) _ b (by omega)
      · rw [dif_neg h, dif_neg h]

/-- Structural twin of `dfsA`, recursing on `fuel`. -/
def dfsAFuel (g : RueaPathGraph) (dst : Nat) :
    Nat → Nat → Finset Nat → List String → Option (List String) → Nat →
    Except (Option (List String)) (Option (List String) × Nat)
  | 0, _, _, _, best, budget => .ok (best, budget)
  | fuel + 1, cur, visited, stack, best, budget =>
    if h : cur < g.nodes.length then
      if cur = dst then
        if (stack ++ [(g.nodes.get ⟨cur, h⟩).name]).length > (best.getD []).length then
          match budget with
          | 0 => .error none
          | b + 1 =>
            if (stack ++ [(g.nodes.get ⟨cur, h⟩).name]).length ≤ b then
              .ok (some (stack ++ [(g.nodes.get ⟨cur, h⟩).name]),
                b - (stack ++ [(g.nodes.get ⟨cur, h⟩).name]).length)
            else .error none
        else .ok (best, budget)
      else
        (g.nodes.get ⟨cur, h⟩).links.foldl
          (fun acc nbr =>
            match acc with
            | .error e => .error e
            | .ok (b, bud) =>
              match findNode g nbr with
              | some i =>
                if i ∈ insert cur visited then .ok (b, bud)
                else dfsAFuel g dst fuel i (insert cur visited)
                  (stack ++ [(g.nodes.get ⟨cur, h⟩).name]) b bud
              | none => .ok (b, bud)) (.ok (best, budget))
    else .ok (best, budget)

lemma dfsAFuel_eq (g : RueaPathGraph) (dst : Nat) :
    ∀ (fuel cur : Nat) (visited : Finset Nat) (stack : List String)
      (best : Option (List String)) (budget : Nat),
      dfsMeasure g cur visited < fuel →
      dfsAFuel g dst fuel cur visited stack best budget =
        dfsA g dst cur visited stack best budget := by
  intro fuel
  induction fuel using Nat.strong_induction_on with
  | _ fuel IH =>
    intro cur visited stack best budget hf
    cases fuel with
    | zero => omega
    | succ f =>
      rw [dfsA, dfsAFuel]
      by_cases h : cur < g.nodes.length
      · rw [dif_pos h, dif_pos h]
        by_cases hcd : cur = dst
        · rw [if_pos hcd, if_pos hcd]
        · rw [if_neg hcd, if_neg hcd]
          suffices haux : ∀ (L : List String)
              (a : Except (Option (List String)) (Option (List String) × Nat)),
              L.foldl (fun acc nbr =>
                match acc with
                | .error e => .error e
                | .ok (b, bud) =>
                  match findNode g nbr with
                  | some i =>
                    if i ∈ insert cur visited then .ok (b, bud)
                    else dfsAFuel g dst f i (insert cur visited)
                      (stack ++ [(g.nodes.get ⟨cur, h⟩).name]) b bud
                  | none => .ok (b, bud)) a =
              L.foldl (fun acc nbr =>
                match acc with
                | .error e => .error e
                | .ok (b, bud) =>
                  match findNode g nbr with
                  | some i =>
                    if hv : i ∈ insert cur visited then .ok (b, bud)
                    else dfsA g dst i (insert cur visited)
                      (stack ++ [(g.nodes.get ⟨cur, h⟩).name]) b bud
                  | none => .ok (b, bud)) a by
            exact haux _ (.ok (best, budget))
          intro L
          induction L with
          | nil => intro a; rfl
          | cons nbr rest ihL =>
            intro a
            rw [List.foldl_cons, List.foldl_cons, ihL]
            congr 1
            cases a with
            | error e => rfl
            | ok p =>
              obtain ⟨b, bud⟩ := p
              cases hfn : findNode g nbr with
              | none => rfl
              | some i =>
                show (if i ∈ insert cur visited then
                    (.ok (b, bud) : Except (Option (List String)) (Option (List String) × Nat))
                  else dfsAFuel g dst f i (insert cur visited)
                    (stack ++ [(g.nodes.get ⟨cur, h⟩).name]) b bud) =
                  (if hv : i ∈ insert cur visited then
                    (.ok (b, bud) : Except (Option (List String)) (Option (List String) × Nat))
                  else dfsA g dst i (insert cur visited)
                    (stack ++ [(g.nodes.get ⟨cur, h⟩).name]) b bud)
                by_cases hiv : i ∈ insert cur visited
                · rw [if_pos hiv, dif_pos hiv]
                · rw [if_neg hiv, dif_neg hiv]
                  have hdec := dfsMeasure_decrease g visited h hiv
                  exact IH f (Nat.lt_succ_self f) i (insert cur visited) _ b bud (by omega)
      · rw [dif_neg h, dif_neg h]

/-! ## Claim theorems -/

/-- The invariant of the initial call made by `on_pathfind`:
empty stack, empty visited set, entering the resolved source index. -/
lemma stackInv_init {g : RueaPathGraph} {src : String} {si : Nat}
    (hs : findNode g src = some si) : StackInv g si si ∅ [] := by
  refine ⟨[], by simp, by simp, List.nodup_nil, findNode_lt hs, by simp, ?_, ?_, by simp⟩
  · intro j hj
    simp only [List.nil_append, List.mem_singleton] at hj
    subst hj
    exact findNode_of_found hs
  · simp [List.chain'_singleton]

/-- C1: for every graph and every source and destination that both resolve
via node lookup, the route computed by the search the provider entry point
runs (and then serializes verbatim), if non-empty, is a sequence of
pairwise-distinct node names in which every consecutive pair is connected
by a link declared on the earlier name's node, the first name equals the
source and the last equals the destination. -/
theorem C1_provider_route_valid (g : RueaPathGraph) (src dst : String) (si di : Nat)
    (hs : findNode g src = some si) (hd : findNode g dst = some di)
    (hne : dfsLongest g di si ∅ [] [] ≠ []) :
    validRoute g src dst (dfsLongest g di si ∅ [] []) := by
  have hbp := dfs_best_prop g src dst si di hs hd (dfsMeasure g si ∅) si ∅ [] []
    le_rfl (stackInv_init hs) (Or.inl rfl)
  rcases hbp with h | h
  · exact absurd h hne
  · exact h

/-- Witness for C1 on the diamond graph: the returned route [A,B,D] is a
valid simple route from A to D. -/
theorem C1_provider_route_valid_witness :
    validRoute gDiamond "A" "D" (dfsLongest gDiamond 3 0 ∅ [] []) :=
  C1_provider_route_valid gDiamond "A" "D" 0 3 (by decide) (by decide)
    (by rw [← dfsFuel_eq gDiamond 3 9 0 ∅ [] [] (by decide)]; decide)

/-- C3: on the cyclic graph with mutual links A↔B and a link B→C, the
depth-first backtracking search from A to C terminates (the search
function is total, by the strictly decreasing `dfsMeasure`) and returns
the route [A,B,C]. -/
theorem C3_cycle_safety :
    findNode gCycle "A" = some 0 ∧ findNode gCycle "C" = some 2 ∧
    dfsLongest gCycle 2 0 ∅ [] [] = ["A", "B", "C"] := by
  refine ⟨by decide, by decide, ?_⟩
  rw [← dfsFuel_eq gCycle 2 7 0 ∅ [] [] (by decide)]
  decide

/-- C4: on the diamond graph A→[B,C], B→[D], C→[D], D→[], the search from
A to D returns exactly [A,B,D]: the tied candidate [A,C,D], discovered
later because B precedes C in A's neighbour list, does not replace it,
since a candidate is adopted only when strictly longer. -/
theorem C4_determinism :
    findNode gDiamond "A" = some 0 ∧ findNode gDiamond "D" = some 3 ∧
    dfsLongest gDiamond 3 0 ∅ [] [] = ["A", "B", "D"] := by
  refine ⟨by decide, by decide, ?_⟩
  rw [← dfsFuel_eq gDiamond 3 9 0 ∅ [] [] (by decide)]
  decide

lemma nodes_isEmpty_false {g : RueaPathGraph} (h : g.nodes ≠ []) :
    g.nodes.isEmpty = false := by
  cases hn : g.nodes with
  | nil => exact absurd hn h
  | cons a l => rfl

/-- C5: when the source name equals the destination name and resolves, the
provider entry point returns `RUEA_OK` and the output bundle holds exactly
the serialization of the single-element route containing that name — the
search adopts the one-node path immediately, before visiting any link. -/
theorem C5_self_route (gss : RueaSettings) (g : RueaPathGraph) (s : String) (si : Nat)
    (o : RueaSettings) (hg : extractGraph gss = some g) (hs : findNode g s = some si) :
    on_pathfind (some gss) (some s) (some s) (some o) =
      (.RUEA_OK, some { o with
        version := RUEA_ABI_VERSION
        items := some [⟨some "route", RueaVal.str (serializeRoute [s])⟩]
        count := 1 }) := by
  have hlt := findNode_lt hs
  have hnempty := findNode_nodes_ne_nil hs
  have hdfs : dfsLongest g si si ∅ [] [] = [s] := by
    rw [dfsLongest, dif_pos hlt, if_pos rfl, if_pos (by simp)]
    rw [List.nil_append, nodeNameD_get hlt, findNode_name hs]
  have hcond : ¬(g.nodes.isEmpty = true) := by
    rw [nodes_isEmpty_false hnempty]
    exact Bool.false_ne_true
  simp only [on_pathfind, hg]
  rw [if_neg hcond]
  simp only [hs]
  rw [hdfs]
  simp only [build_route_settings]
  rw [if_neg (by simp : ¬([s] : List String) = [])]

/-- Witness for C5: source equals destination A on the diamond graph. -/
theorem C5_self_route_witness :
    on_pathfind (some (gsOf gDiamond)) (some "A") (some "A") (some outJunk) =
      (.RUEA_OK, some { outJunk with
        version := RUEA_ABI_VERSION
        items := some [⟨some "route", RueaVal.str (serializeRoute ["A"])⟩]
        count := 1 }) :=
  C5_self_route (gsOf gDiamond) gDiamond "A" 0 outJunk (by decide) (by decide)

/-- C6: when the graph extracts, both endpoint names resolve, and no valid
route from source to destination exists, the provider entry point returns
`RUEA_OK` (not an error) and the output bundle holds zero entries — no
`"route"` entry with an empty array text. -/
theorem C6_no_path_zero_entries (gss : RueaSettings) (g : RueaPathGraph)
    (s d : String) (si di : Nat) (o : RueaSettings)
    (hg : extractGraph gss = some g)
    (hs : findNode g s = some si) (hd : findNode g d = some di)
    (hnp : ∀ r : List String, ¬ validRoute g s d r) :
    on_pathfind (some gss) (some s) (some d) (some o) =
      (.RUEA_OK, some { o with
        version := RUEA_ABI_VERSION
        items := none
        count := 0 }) := by
  have hnempty := findNode_nodes_ne_nil hs
  have hbp := dfs_best_prop g s d si di hs hd (dfsMeasure g si ∅) si ∅ [] []
    le_rfl (stackInv_init hs) (Or.inl rfl)
  have hdfs : dfsLongest g di si ∅ [] [] = [] := by
    rcases hbp with h | h
    · exact h
    · exact absurd h (hnp _)
  have hcond : ¬(g.nodes.isEmpty = true) := by
    rw [nodes_isEmpty_false hnempty]
    exact Bool.false_ne_true
  simp only [on_pathfind, hg]
  rw [if_neg hcond]
  simp only [hs, hd]
  rw [hdfs]
  simp only [build_route_settings]
  simp

/-- On the two isolated nodes there is no valid route from A to B. -/
lemma gNoPath_no_route : ∀ r : List String, ¬ validRoute gNoPath "A" "B" r := by
  intro r hr
  obtain ⟨hne, hnd, hch, hhd, hlast⟩ := hr
  cases r with
  | nil => exact hne rfl
  | cons a rest =>
    have ha : a = "A" := by simpa using hhd
    subst ha
    cases rest with
    | nil =>
      simp only [List.getLast?_singleton, Option.some_inj] at hlast
      exact absurd hlast (by decide)
    | cons b rest2 =>
      have hstep : linkStep gNoPath "A" b := (List.chain'_cons.mp hch).1
      obtain ⟨j, hj, hmem⟩ := hstep
      have hj0 : findNode gNoPath "A" = some 0 := by decide
      rw [hj0] at hj
      have : (0 : Nat) = j := Option.some_injective _ hj
      subst this
      have hlinks : nodeLinksD gNoPath 0 = [] := by decide
      rw [hlinks] at hmem
      exact absurd hmem (List.not_mem_nil b)

/-- Witness for C6: two isolated nodes A, B; searching A→B returns OK with
zero entries. -/
theorem C6_no_path_zero_entries_witness :
    on_pathfind (some (gsOf gNoPath)) (some "A") (some "B") (some outJunk) =
      (.RUEA_OK, some { outJunk with
        version := RUEA_ABI_VERSION
        items := none
        count := 0 }) :=
  C6_no_path_zero_entries (gsOf gNoPath) gNoPath "A" "B" 0 1 outJunk
    (by decide) (by decide) (by decide) gNoPath_no_route

/-- C7: if any of the four inputs is NULL, or no valid binary `"graph"`
entry of sufficient size exists in the settings bundle, or the source or
destination name does not resolve, the provider entry point returns
`RUEA_ERR_BAD_ARGUMENT` and the output bundle is left exactly as it was. -/
theorem C7_bad_argument_unmutated (gs : Option RueaSettings) (src dst : Option String)
    (out : Option RueaSettings)
    (hbad : gs = none ∨ src = none ∨ dst = none ∨ out = none ∨
      (∃ gss, gs = some gss ∧ extractGraph gss = none) ∨
      (∃ gss g s d, gs = some gss ∧ src = some s ∧ dst = some d ∧
        extractGraph gss = some g ∧
        (findNode g s = none ∨ findNode g d = none))) :
    on_pathfind gs src dst out = (.RUEA_ERR_BAD_ARGUMENT, out) := by
  rcases hbad with h | h | h | h | ⟨gss, hgs, hext⟩ | ⟨gss, g, s, d, hgs, hsrc, hdst, hext, hfind⟩
  · subst h
    cases src <;> cases dst <;> cases out <;> rfl
  · subst h
    cases gs <;> cases dst <;> cases out <;> rfl
  · subst h
    cases gs <;> cases src <;> cases out <;> rfl
  · subst h
    cases gs <;> cases src <;> cases dst <;> rfl
  · subst hgs
    cases src with
    | none => cases dst <;> cases out <;> rfl
    | some s =>
      cases dst with
      | none => cases out <;> rfl
      | some d =>
        cases out with
        | none => rfl
        | some o => simp [on_pathfind, hext]
  · subst hgs
    subst hsrc
    subst hdst
    cases out with
    | none => rfl
    | some o =>
      simp only [on_pathfind, hext]
      by_cases hemp : g.nodes.isEmpty = true
      · rw [if_pos hemp]
      · rw [if_neg hemp]
        rcases hfind with hfs | hfd
        · simp [hfs]
        · cases hfs2 : findNode g s with
          | none => simp [hfs2]
          | some v => simp [hfs2, hfd]

/-- Witness for C7: all-NULL inputs. -/
theorem C7_bad_argument_unmutated_witness :
    on_pathfind none none none none = (.RUEA_ERR_BAD_ARGUMENT, none) :=
  C7_bad_argument_unmutated none none none none (Or.inl rfl)

/-- C8: for every non-empty route the serializer produces a bundle with
exactly one entry, key `"route"`, of string kind, whose value wraps each
name verbatim in double quotes, joins them with commas and encloses them
in square brackets; on the route A,B,C that text is `["A","B","C"]` and
parsing it recovers the same ordered sequence. -/
theorem C8_serializer_format :
    (∀ (r : List String) (o : RueaSettings), r ≠ [] →
      build_route_settings r (some o) =
        (.RUEA_OK, some { o with
          version := RUEA_ABI_VERSION
          items := some [⟨some "route", RueaVal.str (routeText r)⟩]
          count := 1 })) ∧
    routeText ["A", "B", "C"] = "[\"A\",\"B\",\"C\"]" ∧
    parseRoute (routeText ["A", "B", "C"]) = some ["A", "B", "C"] := by
  refine ⟨?_, by decide, by decide⟩
  intro r o hr
  simp only [build_route_settings]
  rw [if_neg hr, serializeRoute_eq_routeText]

/-- Witness for C8 on the route A,B,C. -/
theorem C8_serializer_format_witness :
    build_route_settings ["A", "B", "C"] (some outJunk) =
      (.RUEA_OK, some { outJunk with
        version := RUEA_ABI_VERSION
        items := some [⟨some "route", RueaVal.str (routeText ["A", "B", "C"])⟩]
        count := 1 }) :=
  C8_serializer_format.1 ["A", "B", "C"] outJunk (by decide)

/-- C9: for every non-empty route, the capacity the serializer computes
before writing (2, plus length+4 per name, plus 1 for the terminator) is a
conservative upper bound on the bytes actually written (the serialized
text plus its trailing NUL), so every stored byte lies within the
allocated buffer. -/
theorem C9_buffer_bound (r : List String) (hr : r ≠ []) :
    (serializeRoute r).length + 1 ≤ buf_cap r + 1 := by
  rw [buf_cap_eq, serializeRoute]
  have hitems := serializeItems_length_le r
  have hsum : ∀ l : List String,
      (l.map fun s => s.length + 3).sum ≤ (l.map fun s => s.length + 4).sum := by
    intro l
    induction l with
    | nil => simp
    | cons s rest ih =>
      simp only [List.map_cons, List.sum_cons]
      omega
  have hsum' := hsum r
  have hb : ("[" : String).length = 1 := rfl
  have he : ("]" : String).length = 1 := rfl
  simp only [String.length_append, hb, he]
  omega

/-- Witness for C9 on the route A,B,C. -/
theorem C9_buffer_bound_witness :
    (serializeRoute ["A", "B", "C"]).length + 1 ≤ buf_cap ["A", "B", "C"] + 1 :=
  C9_buffer_bound ["A", "B", "C"] (by decide)

/-- Counterexample for C2.  On the graph A→[D,B], B→[D], D→[], searching
A→D first adopts [A,D] (three allocations) and then the strictly longer
[A,B,D].  With seven successful allocations the search completes and
returns [A,B,D]; with only three — so that the very first allocation of
the second, strictly-longer adoption fails — the modelled run ends in a
crash (`.error`, the C code writes through the NULL result of the
unchecked `make_str_array`) whose carried best-route slot is `none`: the
previous best [A,D] had already been released by `free_route` *before*
the failing allocation, so it is not left intact, and no
`RUEA_ERR_NO_MEMORY` status arises; the provider-level run with the same
failure point likewise crashes instead of returning `NO_MEMORY`. -/
theorem C2_counterexample :
    dfsA gTwoAdopt 2 0 ∅ [] none 7 = .ok (some ["A", "B", "D"], 0) ∧
    dfsA gTwoAdopt 2 0 ∅ [] none 3 = .error none ∧
    on_pathfindA (some (gsOf gTwoAdopt)) (some "A") (some "D") (some outJunk) 5 =
      .error none := by
  have h7 : dfsA gTwoAdopt 2 0 ∅ [] none 7 = .ok (some ["A", "B", "D"], 0) := by
    rw [← dfsAFuel_eq gTwoAdopt 2 7 0 ∅ [] none 7 (by decide)]
    decide
  have h3 : dfsA gTwoAdopt 2 0 ∅ [] none 3 = .error none := by
    rw [← dfsAFuel_eq gTwoAdopt 2 7 0 ∅ [] none 3 (by decide)]
    decide
  refine ⟨h7, h3, ?_⟩
  have hext : extractGraph (gsOf gTwoAdopt) = some gTwoAdopt := by decide
  have hA : findNode gTwoAdopt "A" = some 0 := by decide
  have hD : findNode gTwoAdopt "D" = some 2 := by decide
  simp only [on_pathfindA, hext, hA, hD]
  rw [if_neg (by decide : ¬(gTwoAdopt.nodes.isEmpty = true))]
  simp only [h3]

/-- C2 as amended: an allocation failure during adoption of a strictly
longer candidate route is not handled — the previous best route is
released before the replacement allocations are attempted and their
results are never checked, so the run crashes with the best-route slot
already emptied, and no NoMemory status is propagated from the search; on
the two-adoption graph every insufficient budget ends this way. -/
theorem C2_adoption_failure_crashes (b : Nat) (hb : b < 7) :
    dfsA gTwoAdopt 2 0 ∅ [] none b = .error none := by
  rw [← dfsAFuel_eq gTwoAdopt 2 7 0 ∅ [] none b (by decide)]
  interval_cases b <;> decide

/-- Witness for the amended C2 at budget 3 (failure while adopting the
second, strictly longer route). -/
theorem C2_adoption_failure_crashes_witness :
    dfsA gTwoAdopt 2 0 ∅ [] none 3 = .error none :=
  C2_adoption_failure_crashes 3 (by decide)

/-- C10: with a non-NULL output bundle and a non-empty route, the
serializer stores the ABI version into the output bundle before its first
allocation, so on either NO_MEMORY return the version field has already
been mutated while the items and count fields still hold their previous
values. -/
theorem C10_version_set_before_alloc (o : RueaSettings) (route : List String)
    (budget : Nat) (hne : route ≠ []) (hb : budget < 2) :
    build_route_settingsA route (some o) budget =
      (.RUEA_ERR_NO_MEMORY, some { o with version := RUEA_ABI_VERSION }, 0) := by
  simp only [build_route_settingsA]
  rw [if_neg hne]
  interval_cases budget
  · rfl
  · rfl

/-- Witness for C10: the junk-prefilled bundle keeps its items and count,
only the version changes, when the second allocation fails. -/
theorem C10_version_set_before_alloc_witness :
    build_route_settingsA ["A"] (some outJunk) 1 =
      (.RUEA_ERR_NO_MEMORY, some { outJunk with version := RUEA_ABI_VERSION }, 0) :=
  C10_version_set_before_alloc outJunk ["A"] 1 (by decide) (by decide)
